import Mathlib

/-!
Shallow embedding of the `atlasexec` package of `ariga/atlas-go-sdk`:
the subprocess result-classification engine, the JSON multi-record
decoder, and the error taxonomy, together with theorems settling the
specification claims about them.

Sources embedded (Go):
- `atlasexec/atlas.go`: `runCommand`, `Error`, `Error.Error`,
  `Error.ExitCode`, `jsonDecode`, `firstResult`, `last`, `SetEnv`,
  `WithWorkDir`, `defaultEnvs`.
- `atlas_models.go`: `SchemaApply`, `SchemaApplyError`,
  `newSchemaApplyError`, `SchemaApplyError.Error`.
- the `jsonDecodeErr` combinator and the `MigrateLintError` method in
  the revision that the claims cite.

Machine-level conventions of the embedding: Go byte strings are Lean
`String`s; Go `nil`-able pointers are `Option`s; a Go function that can
return a non-nil `error` is a Lean function into `Except`/`Option`;
Go's `encoding/json` stream decoder is embedded as an executable
recursive-descent parser over `List Char` (see `parseValue`).
-/

namespace AtlasExec

/-- Whitespace as recognized by Go's JSON scanner and by the trimming
the package applies to captured output (space, tab, newline, carriage
return). -/
def isWs (c : Char) : Bool :=
  c = ' ' || c = '\t' || c = '\n' || c = '\r'

/-- Model of `strings.TrimSpace`: drops leading and trailing whitespace
from a string. -/
def trimSpace (s : String) : String :=
  String.mk (((s.data.dropWhile isWs).reverse.dropWhile isWs).reverse)

/-- The underlying `err` carried by the package's `Error` wrapper:
either an `exec.ExitError` holding the process's exit information, a
non-exit process error (e.g. the process never started), or the
`fmt.Errorf` wrapper produced when decoding JSON from stdout fails. -/
inductive UnderlyingErr where
  | exitErr (code : Int)
  | startErr
  | decodeErr
deriving DecidableEq

/-- The `Error` struct of `atlasexec/atlas.go`:

```go
type Error struct \x7b
    err    error  // The underlying error.
    Stdout string // Stdout of the command.
    Stderr string // Stderr of the command.
\x7d
``` -/
structure Error where
  err : Option UnderlyingErr
  Stdout : String
  Stderr : String
deriving DecidableEq

/-- The message method `(e *Error) Error()` (named `ErrorMsg` here
because Lean rejects `Error.Error` as a declaration): the stderr text
when non-empty, otherwise the stdout text. -/
def Error.ErrorMsg (e : Error) : String :=
  if e.Stderr ≠ "" then e.Stderr else e.Stdout

/-- The accessor `(e *Error) ExitCode()`: the exit code carried by an
`exec.ExitError` in the underlying error, and otherwise the value of
`new(exec.ExitError).ExitCode()`, which is `-1` (a nil
`os.ProcessState` reports exit code `-1`). -/
def Error.ExitCode (e : Error) : Int :=
  match e.err with
  | some (.exitErr code) => code
  | _ => -1

/-- The three raw facts of one completed `cmd.Run()`: the run error
(`none` when the process exited successfully, otherwise the error Go
reports — an `exec.ExitError` for a failing exit status, or a non-exit
error when the process could not be run) and the two captured streams. -/
structure RawOutcome where
  runErr : Option UnderlyingErr
  stdout : String
  stderr : String
deriving DecidableEq

/-- Result classification of `(c *Client) runCommand` in
`atlasexec/atlas.go` after the child process has been waited for:

```go
if err := cmd.Run(); err != nil \x7b
    return nil, &Error\x7b
        err:    err,
        Stderr: strings.TrimSpace(stderr.String()),
        Stdout: strings.TrimSpace(stdout.String()),
    \x7d
\x7d
return &stdout, nil
```

A successful run yields the raw stdout reader; a failing run yields the
`Error` wrapper with both streams trimmed. -/
def runCommand (o : RawOutcome) : Except Error String :=
  match o.runErr with
  | some u => .error { err := some u, Stdout := trimSpace o.stdout, Stderr := trimSpace o.stderr }
  | none => .ok o.stdout

/-- One decoded result record, modelled by its claim-relevant field:
the record-level `Error string` field of the `SchemaApply` struct in
`atlas_models.go` (its other fields play no role in any claim). -/
structure SchemaApply where
  Error : String
deriving DecidableEq

instance : Inhabited SchemaApply := ⟨⟨""⟩⟩

/-- The generic `last` helper of `atlasexec/atlas.go`:

```go
func last[A ~[]E, E any](a A) (_ E) \x7b
    if l := len(a); l > 0 \x7b
        return a[l-1]
    \x7d
    return
\x7d
```

It returns the final element, or the zero value of `E` (modelled by
`default`) for an empty slice. -/
def last {α : Type} [Inhabited α] (a : List α) : α :=
  a.getLastD default

/-- The `SchemaApplyError` struct: the partial-failure error carrying
the full ordered decoded record sequence. The records come from the
decoder as non-nil pointers, so `Result` stores the records
themselves. -/
structure SchemaApplyError where
  Result : List SchemaApply
deriving DecidableEq

/-- The message method `(e *SchemaApplyError) Error()`, which is
`last(e.Result).Error` in the source. `last` operates on a slice of
pointers whose zero value is nil, so on an empty `Result` the field
access dereferences a nil pointer; the message is therefore modelled as
`Option String`, with `none` for that nil dereference. -/
def SchemaApplyError.ErrorMsg (e : SchemaApplyError) : Option String :=
  (last (e.Result.map some)).map SchemaApply.Error

/-- Union of the `error` values the embedded code can produce: the
`*Error` wrapper, the `*SchemaApplyError` partial-failure error, the
`LintErr` sentinel (`errors.New("lint error")`, a distinct identity),
and plain `errors.New`/`fmt.Errorf` errors carrying only a message. -/
inductive GoError where
  | cli (e : Error)
  | schemaApply (e : SchemaApplyError)
  | lintErr
  | simple (msg : String)
deriving DecidableEq

/-- Discriminator: is this error the partial-failure shape
(`*SchemaApplyError`)? -/
def GoError.isPartialError : GoError → Bool
  | .schemaApply _ => true
  | _ => false

/-- Discriminator: is this error the malformed-output shape — an
`*Error` whose underlying error is the JSON-decode wrapper? -/
def GoError.isMalformedOutput : GoError → Bool
  | .cli ⟨some .decodeErr, _, _⟩ => true
  | _ => false

/-- Constructor `newSchemaApplyError` of `atlas_models.go`:
wraps the decoded records in a `*SchemaApplyError`. -/
def newSchemaApplyError (r : List SchemaApply) : GoError :=
  .schemaApply ⟨r⟩

/-- The cardinality message of `firstResult` in `atlasexec/atlas.go`. -/
def firstResultCardMsg : String :=
  "The command returned more than one result, use Slice function instead"

/-- The single-result assertion `firstResult` of `atlasexec/atlas.go`:

```go
func firstResult[T ~[]E, E any](r T, err error) (e E, _ error) \x7b
    switch \x7b
    case err != nil:
        return e, err
    case len(r) == 1:
        return r[0], nil
    default:
        return e, errors.New("...")
    \x7d
\x7d
``` -/
def firstResult {α : Type} (r : List α) (err : Option GoError) : Except GoError α :=
  match err with
  | some e => .error e
  | none =>
    match r with
    | [x] => .ok x
    | _ => .error (.simple firstResultCardMsg)

/-- The fixed operational environment, `defaultEnvs` in
`atlasexec/atlas.go`. -/
def defaultEnvs : List (String × String) :=
  [("ATLAS_NO_UPDATE_NOTIFIER", "1"), ("ATLAS_NO_UPGRADE_SUGGESTIONS", "1")]

/-- Lookup in an association-list model of a Go `map[string]string`
(keys unique, first match wins). -/
def lookupEnv (e : List (String × String)) (k : String) : Option String :=
  (e.find? (fun kv => kv.1 == k)).map (·.2)

/-- Model of `maps.Copy(dst, src)`: every key of `src` takes its `src`
value, keys only in `dst` keep their `dst` value. -/
def mapsCopy (dst src : List (String × String)) : List (String × String) :=
  src ++ dst.filter (fun kv => (lookupEnv src kv.1).isNone)

/-- The `Client` struct of `atlasexec/atlas.go`: executable path,
working directory, and the caller-set base environment (`nil` when the
caller never called `SetEnv`, in which case the OS environment is
used). -/
structure Client where
  execPath : String
  workingDir : String
  env : Option (List (String × String))
deriving DecidableEq

/-- The `(c *Client) SetEnv` method:

```go
func (c *Client) SetEnv(env map[string]string) error \x7b
    for k := range env \x7b
        if _, ok := defaultEnvs[k]; ok \x7b
            return fmt.Errorf("atlasexec: cannot override the default environment variable %q", k)
        \x7d
    \x7d
    c.env = env
    return nil
\x7d
```

The Go method mutates the receiver, so the model returns the updated
client together with the optional error; on error the client is
returned unchanged. Go map iteration order is unspecified; the model
reports the first offending key in list order. -/
def SetEnv (c : Client) (env : List (String × String)) : Client × Option GoError :=
  match env.find? (fun kv => (lookupEnv defaultEnvs kv.1).isSome) with
  | some kv =>
      (c, some (.simple ("atlasexec: cannot override the default environment variable \"" ++ kv.1 ++ "\"")))
  | none => ({ c with env := some env }, none)

/-- The environment handed to the child process by `runCommand`:

```go
var env Environ
if c.env == nil \x7b
    env = NewOSEnviron()
\x7d else \x7b
    env = maps.Clone(c.env)
\x7d
maps.Copy(env, defaultEnvs)
cmd.Env = env.ToSlice()
```

`osEnv` stands for the result of `NewOSEnviron()`. -/
def childEnv (c : Client) (osEnv : List (String × String)) : List (String × String) :=
  mapsCopy (match c.env with | none => osEnv | some e => e) defaultEnvs

/-- The `(c *Client) WithWorkDir` method:

```go
func (c *Client) WithWorkDir(dir string, fn func(*Client) error) error \x7b
    wd := c.workingDir
    defer func() \x7b c.workingDir = wd \x7d()
    c.workingDir = dir
    return fn(c)
\x7d
```

`fn` receives the client by pointer and may itself update any field;
the model therefore passes `fn` the modified client and lets `fn`
return the client state it leaves behind, over which the deferred
restore of the working directory is applied. -/
def WithWorkDir (c : Client) (dir : String)
    (fn : Client → Client × Option GoError) : Client × Option GoError :=
  let r := fn { c with workingDir := dir }
  ({ r.1 with workingDir := c.workingDir }, r.2)

/-- Syntax tree of one JSON value, as produced by Go's
`encoding/json`. Number lexemes are kept verbatim (the embedded code
never inspects numeric values). -/
inductive Json where
  | null
  | bool (b : Bool)
  | num (lexeme : String)
  | str (s : String)
  | arr (elems : List Json)
  | obj (fields : List (String × Json))

/-- Leading-whitespace skipping, as Go's JSON scanner does between
tokens and between top-level values. -/
def skipWs : List Char → List Char
  | [] => []
  | c :: cs => if isWs c then skipWs cs else c :: cs

/-- Value of one hexadecimal digit, as in `getu4` of `encoding/json`. -/
def hexVal (c : Char) : Option Nat :=
  if '0' ≤ c ∧ c ≤ '9' then some (c.toNat - '0'.toNat)
  else if 'a' ≤ c ∧ c ≤ 'f' then some (c.toNat - 'a'.toNat + 10)
  else if 'A' ≤ c ∧ c ≤ 'F' then some (c.toNat - 'A'.toNat + 10)
  else none

/-- Value of a four-hex-digit escape. -/
def combineHex (a b c d : Nat) : Nat :=
  ((a * 16 + b) * 16 + c) * 16 + d

/-- Body of a JSON string literal after the opening quote, following
Go's `unquote`: plain characters up to the closing quote, the simple
escapes, and `\uXXXX` escapes with UTF-16 surrogate-pair handling
(an unpaired surrogate becomes U+FFFD, as in `encoding/json`);
a raw control character or a malformed escape is a decode error.
The fuel only bounds the recursion; one unit is spent per produced
character, so any fuel exceeding the input length is enough. -/
def parseStringBody : Nat → List Char → Option (List Char × List Char)
  | 0, _ => none
  | _ + 1, [] => none
  | _ + 1, '"' :: cs => some ([], cs)
  | f + 1, '\\' :: 'u' :: a :: b :: c :: d :: cs =>
    match hexVal a, hexVal b, hexVal c, hexVal d with
    | some ha, some hb, some hc, some hd =>
      let n := combineHex ha hb hc hd
      if 0xD800 ≤ n ∧ n < 0xE000 then
        match cs with
        | '\\' :: 'u' :: a2 :: b2 :: c2 :: d2 :: cs2 =>
          match hexVal a2, hexVal b2, hexVal c2, hexVal d2 with
          | some ha2, some hb2, some hc2, some hd2 =>
            let m := combineHex ha2 hb2 hc2 hd2
            if n < 0xDC00 ∧ 0xDC00 ≤ m ∧ m < 0xE000 then
              (parseStringBody f cs2).map
                (fun p => (Char.ofNat (0x10000 + (n - 0xD800) * 0x400 + (m - 0xDC00)) :: p.1, p.2))
            else (parseStringBody f cs).map (fun p => ('�' :: p.1, p.2))
          | _, _, _, _ => (parseStringBody f cs).map (fun p => ('�' :: p.1, p.2))
        | _ => (parseStringBody f cs).map (fun p => ('�' :: p.1, p.2))
      else
        (parseStringBody f cs).map (fun p => (Char.ofNat n :: p.1, p.2))
    | _, _, _, _ => none
  | f + 1, '\\' :: e :: cs =>
    if e = '"' then (parseStringBody f cs).map (fun p => ('"' :: p.1, p.2))
    else if e = '\\' then (parseStringBody f cs).map (fun p => ('\\' :: p.1, p.2))
    else if e = '/' then (parseStringBody f cs).map (fun p => ('/' :: p.1, p.2))
    else if e = 'b' then (parseStringBody f cs).map (fun p => (Char.ofNat 8 :: p.1, p.2))
    else if e = 'f' then (parseStringBody f cs).map (fun p => (Char.ofNat 12 :: p.1, p.2))
    else if e = 'n' then (parseStringBody f cs).map (fun p => ('\n' :: p.1, p.2))
    else if e = 'r' then (parseStringBody f cs).map (fun p => ('\r' :: p.1, p.2))
    else if e = 't' then (parseStringBody f cs).map (fun p => ('\t' :: p.1, p.2))
    else none
  | f + 1, c :: cs =>
    if c.toNat < 0x20 then none
    else (parseStringBody f cs).map (fun p => (c :: p.1, p.2))

/-- Longest prefix of decimal digits and the remainder. -/
def takeDigits : List Char → (List Char × List Char)
  | [] => ([], [])
  | c :: cs =>
    if c.isDigit then
      let p := takeDigits cs
      (c :: p.1, p.2)
    else ([], c :: cs)

/-- Integer part of a JSON number: `0`, or a non-zero digit followed by
digits (after `0`, a further digit belongs to the next top-level
value, as in Go's scanner). -/
def parseIntPart : List Char → Option (List Char × List Char)
  | [] => none
  | '0' :: cs => some (['0'], cs)
  | c :: cs =>
    if c.isDigit then
      let p := takeDigits cs
      some (c :: p.1, p.2)
    else none

/-- Optional exponent part of a JSON number, appended to the lexeme
accumulated so far. -/
def parseExpPart (acc : List Char) (cs : List Char) : Option (List Char × List Char) :=
  match cs with
  | c :: rest =>
    if c = 'e' ∨ c = 'E' then
      let p : List Char × List Char :=
        match rest with
        | s :: r => if s = '+' ∨ s = '-' then ([s], r) else ([], rest)
        | [] => ([], [])
      match takeDigits p.2 with
      | ([], _) => none
      | (ds, rest2) => some (acc ++ c :: p.1 ++ ds, rest2)
    else some (acc, cs)
  | [] => some (acc, [])

/-- One JSON number token: optional minus, integer part, optional
fraction, optional exponent, per the grammar Go's scanner enforces. -/
def parseNumber (cs : List Char) : Option (List Char × List Char) :=
  let p : List Char × List Char :=
    match cs with
    | '-' :: rest => (['-'], rest)
    | _ => ([], cs)
  match parseIntPart p.2 with
  | none => none
  | some (ip, cs2) =>
    match cs2 with
    | '.' :: rest =>
      match takeDigits rest with
      | ([], _) => none
      | (ds, cs3) => parseExpPart (p.1 ++ ip ++ '.' :: ds) cs3
    | _ => parseExpPart (p.1 ++ ip) cs2

mutual

/-- One JSON value, as one `Decode` call of Go's `json.Decoder` reads
it: skip whitespace, then dispatch on the first character. The fuel
argument bounds the recursion depth; every recursive call follows at
least one consumed character, so any fuel exceeding the input length
is enough. -/
def parseValue : Nat → List Char → Option (Json × List Char)
  | 0, _ => none
  | fuel + 1, cs =>
    match skipWs cs with
    | [] => none
    | '{' :: rest =>
      match skipWs rest with
      | '}' :: rest1 => some (.obj [], rest1)
      | rest1 => parseMembers fuel rest1 []
    | '[' :: rest =>
      match skipWs rest with
      | ']' :: rest1 => some (.arr [], rest1)
      | rest1 => parseElems fuel rest1 []
    | '"' :: rest => (parseStringBody (rest.length + 1) rest).map (fun p => (.str (String.mk p.1), p.2))
    | 'n' :: 'u' :: 'l' :: 'l' :: rest => some (.null, rest)
    | 't' :: 'r' :: 'u' :: 'e' :: rest => some (.bool true, rest)
    | 'f' :: 'a' :: 'l' :: 's' :: 'e' :: rest => some (.bool false, rest)
    | c :: rest =>
      if c = '-' ∨ c.isDigit then
        (parseNumber (c :: rest)).map (fun p => (.num (String.mk p.1), p.2))
      else none

/-- Members of a JSON object after the opening brace of a non-empty
object, accumulating the fields in emission order. -/
def parseMembers : Nat → List Char → List (String × Json) → Option (Json × List Char)
  | 0, _, _ => none
  | fuel + 1, cs, acc =>
    match skipWs cs with
    | '"' :: rest =>
      match parseStringBody (rest.length + 1) rest with
      | some (key, rest1) =>
        match skipWs rest1 with
        | ':' :: rest2 =>
          match parseValue fuel rest2 with
          | some (v, rest3) =>
            match skipWs rest3 with
            | ',' :: rest4 => parseMembers fuel rest4 (acc ++ [(String.mk key, v)])
            | '}' :: rest4 => some (.obj (acc ++ [(String.mk key, v)]), rest4)
            | _ => none
          | none => none
        | _ => none
      | none => none
    | _ => none

/-- Elements of a JSON array after the opening bracket of a non-empty
array. -/
def parseElems : Nat → List Char → List Json → Option (Json × List Char)
  | 0, _, _ => none
  | fuel + 1, cs, acc =>
    match parseValue fuel cs with
    | some (v, rest) =>
      match skipWs rest with
      | ',' :: rest1 => parseElems fuel rest1 (acc ++ [v])
      | ']' :: rest1 => some (.arr (acc ++ [v]), rest1)
      | _ => none
    | none => none

end

/-- Unmarshalling of one decoded JSON value into the `SchemaApply`
record, as `dec.Decode(&m)` populates the struct: `null` leaves the
zero value, an object fills the `Error` field from its `"Error"` key
when that key holds a string or `null` (a later duplicate key wins, as
in Go), a value of any other type for the key — or a non-object,
non-null top-level value — is an unmarshalling error. Unknown keys are
ignored. -/
def SchemaApply.fromJson : Json → Option SchemaApply
  | .null => some ⟨""⟩
  | .obj fs =>
    match (fs.reverse.find? (fun kv => kv.1 == "Error")).map (·.2) with
    | none => some ⟨""⟩
    | some (Json.str s) => some ⟨s⟩
    | some Json.null => some ⟨""⟩
    | some _ => none
  | _ => none

/-- Decoding loop of `jsonDecode` in `atlasexec/atlas.go`:

```go
var dst []*T
dec := json.NewDecoder(bytes.NewReader(buf))
for \x7b
    var m T
    switch err := dec.Decode(&m); err \x7b
    case io.EOF:
        return dst, nil
    case nil:
        dst = append(dst, &m)
    default:
        return nil, &Error\x7b
            err:    fmt.Errorf("decoding JSON from stdout: %w", err),
            Stdout: string(buf),
        \x7d
    \x7d
\x7d
```

Each iteration models one `Decode` call: end of input (after
whitespace) is `io.EOF`; otherwise one value is parsed and unmarshalled
or the whole decode fails with an `Error` that carries the entire raw
buffer in `Stdout`. The loop fuel exceeds the input length, and every
iteration consumes at least one character, so the fuel never runs out
on reachable inputs; its zero case conservatively reports the same
decode error. -/
def jsonDecodeLoop (fromJ : Json → Option α) (buf : String) :
    Nat → List Char → List α → Except Error (List α)
  | 0, _, _ => .error ⟨some .decodeErr, buf, ""⟩
  | fuel + 1, cs, acc =>
    match skipWs cs with
    | [] => .ok acc
    | c :: cs1 =>
      match parseValue ((c :: cs1).length + 1) (c :: cs1) with
      | some (j, rest) =>
        match fromJ j with
        | some a => jsonDecodeLoop fromJ buf fuel rest (acc ++ [a])
        | none => .error ⟨some .decodeErr, buf, ""⟩
      | none => .error ⟨some .decodeErr, buf, ""⟩

/-- The multi-record decoder `jsonDecode[T]` of `atlasexec/atlas.go`,
reading back-to-back JSON values until end of input. -/
def jsonDecode (fromJ : Json → Option α) (buf : String) : Except Error (List α) :=
  jsonDecodeLoop fromJ buf (buf.data.length + 1) buf.data []

/-- The decoder instantiated at the `SchemaApply` record type. -/
def jsonDecodeSA : String → Except Error (List SchemaApply) :=
  jsonDecode SchemaApply.fromJson

/-- Hexadecimal digit character for a value below 16 (lower case, as
Go's encoder emits). -/
def hexDig (n : Nat) : Char :=
  if n < 10 then Char.ofNat ('0'.toNat + n) else Char.ofNat ('a'.toNat + n - 10)

/-- JSON string escaping of one character, as a JSON marshaller emits
it: the quote and backslash are escaped, control characters become
`\n`, `\r`, `\t` or a `\u00XX` escape, every other character is
emitted verbatim. -/
def escapeChar (c : Char) : List Char :=
  if c = '"' then ['\\', '"']
  else if c = '\\' then ['\\', '\\']
  else if c = '\n' then ['\\', 'n']
  else if c = '\r' then ['\\', 'r']
  else if c = '\t' then ['\\', 't']
  else if c.toNat < 0x20 then ['\\', 'u', '0', '0', hexDig (c.toNat / 16), hexDig (c.toNat % 16)]
  else [c]

/-- A JSON string literal for `s`. -/
def encodeStringChars (s : String) : List Char :=
  '"' :: s.data.flatMap escapeChar ++ ['"']

/-- Canonical JSON marshalling of one synthetic record: an object with
its `Error` field. -/
def encodeRecordChars (r : SchemaApply) : List Char :=
  '{' :: '"' :: 'E' :: 'r' :: 'r' :: 'o' :: 'r' :: '"' :: ':' :: encodeStringChars r.Error ++ ['}']

/-- Newline-delimited back-to-back marshalling of a list of synthetic
records, the round-trip input of the specification's property. -/
def encodeRecords (rs : List SchemaApply) : String :=
  String.mk (rs.flatMap (fun r => encodeRecordChars r ++ ['\n']))

/-- The `jsonDecodeErr` combinator in the revision the claims cite:

```go
func jsonDecodeErr[T any](fn func([]*T) error) func(io.Reader, error) ([]*T, error) \x7b
    return func(r io.Reader, err error) ([]*T, error) \x7b
        if err != nil \x7b
            if cliErr := (&Error\x7b\x7d); errors.As(err, &cliErr) && cliErr.Stderr == "" \x7b
                d, err := jsonDecode[T](strings.NewReader(cliErr.Stdout), nil)
                if err == nil \x7b
                    return nil, fn(d)
                \x7d
            \x7d
            return nil, err
        \x7d
        return jsonDecode[T](r, err)
    \x7d
\x7d
```

The incoming error is always the `*Error` produced by `runCommand`, so
the `errors.As` test always succeeds on the error branch. -/
def jsonDecodeErr (fn : List SchemaApply → GoError) :
    Except Error String → Except GoError (List SchemaApply)
  | .error cliErr =>
    if cliErr.Stderr = "" then
      match jsonDecodeSA cliErr.Stdout with
      | .ok d => .error (fn d)
      | .error _ => .error (.cli cliErr)
    else .error (.cli cliErr)
  | .ok r =>
    match jsonDecodeSA r with
    | .ok d => .ok d
    | .error e => .error (.cli e)

/-- Error classification of the `(c *Client) MigrateLintError` method
applied to the outcome of its `runCommand` call:

```go
r, err := c.runCommand(ctx, args)
var (
    cliErr *Error
    isCLI  = errors.As(err, &cliErr)
)
// Setup errors.
if isCLI && cliErr.Stderr != "" \x7b
    return cliErr
\x7d
// Lint errors.
if isCLI && cliErr.Stdout != "" \x7b
    err = LintErr
    r = strings.NewReader(cliErr.Stdout)
\x7d
// Unknown errors.
if err != nil && !isCLI \x7b
    return err
\x7d
if params.Writer != nil && r != nil \x7b ... io.Copy ... \x7d
return err
```

`runCommand` only produces `*Error` errors, so `isCLI` holds on the
error branch; the copy to `params.Writer` is modelled as infallible, so
`errors.Join` never replaces the returned error. `none` is a nil
returned error. -/
def MigrateLintError (res : Except Error String) : Option GoError :=
  match res with
  | .error cliErr =>
    if cliErr.Stderr ≠ "" then some (.cli cliErr)
    else if cliErr.Stdout ≠ "" then some .lintErr
    else some (.cli cliErr)
  | .ok _ => none

theorem skipWs_cons_of_not_ws {c : Char} (h : isWs c = false) (cs : List Char) :
    skipWs (c :: cs) = c :: cs := by
  simp [skipWs, h]

theorem skipWs_cons_of_ws {c : Char} (h : isWs c = true) (cs : List Char) :
    skipWs (c :: cs) = skipWs cs := by
  simp [skipWs, h]

theorem skipWs_idem (cs : List Char) : skipWs (skipWs cs) = skipWs cs := by
  induction cs with
  | nil => rfl
  | cons c cs ih => by_cases h : isWs c <;> simp [skipWs, h, ih]

theorem jsonDecodeLoop_error_shape {α : Type} (fromJ : Json → Option α) (buf : String) :
    ∀ (fuel : Nat) (cs : List Char) (acc : List α) (e : Error),
      jsonDecodeLoop fromJ buf fuel cs acc = .error e → e = ⟨some .decodeErr, buf, ""⟩ := by
  intro fuel
  induction fuel with
  | zero =>
    intro cs acc e h
    rw [jsonDecodeLoop] at h
    injection h with h
    exact h.symm
  | succ n ih =>
    intro cs acc e h
    rw [jsonDecodeLoop] at h
    split at h
    · cases h
    · split at h
      · split at h
        · exact ih _ _ _ h
        · injection h with h
          exact h.symm
      · injection h with h
        exact h.symm

theorem jsonDecodeLoop_skipWs {α : Type} (fromJ : Json → Option α) (buf : String)
    (fuel : Nat) (cs : List Char) (acc : List α) :
    jsonDecodeLoop fromJ buf fuel (skipWs cs) acc = jsonDecodeLoop fromJ buf fuel cs acc := by
  cases fuel with
  | zero => rfl
  | succ n =>
    rw [jsonDecodeLoop, jsonDecodeLoop, skipWs_idem]

theorem hexVal_hexDig (n : Nat) (h : n < 16) : hexVal (hexDig n) = some n := by
  interval_cases n <;> decide

theorem escapeChar_length_pos (c : Char) : 1 ≤ (escapeChar c).length := by
  unfold escapeChar
  repeat' split
  all_goals simp

theorem length_le_flatMap_escape (l : List Char) :
    l.length ≤ (l.flatMap escapeChar).length := by
  induction l with
  | nil => simp
  | cons c l ih =>
    have := escapeChar_length_pos c
    simp only [List.flatMap_cons, List.length_append, List.length_cons]
    omega

theorem parseStringBody_escape_step (c : Char) (T : List Char) (f : Nat) :
    parseStringBody (f + 1) (escapeChar c ++ T)
      = (parseStringBody f T).map (fun p => (c :: p.1, p.2)) := by
  by_cases h1 : c = '"'
  · subst h1; rfl
  by_cases h2 : c = '\\'
  · subst h2; rfl
  by_cases h3 : c = '\n'
  · subst h3; rfl
  by_cases h4 : c = '\r'
  · subst h4; rfl
  by_cases h5 : c = '\t'
  · subst h5; rfl
  by_cases h6 : c.toNat < 0x20
  · have hesc : escapeChar c
        = ['\\', 'u', '0', '0', hexDig (c.toNat / 16), hexDig (c.toNat % 16)] := by
      simp [escapeChar, h1, h2, h3, h4, h5, h6]
    have e1 : hexVal (hexDig (c.toNat / 16)) = some (c.toNat / 16) :=
      hexVal_hexDig _ (by omega)
    have e2 : hexVal (hexDig (c.toNat % 16)) = some (c.toNat % 16) :=
      hexVal_hexDig _ (by omega)
    have e0 : hexVal '0' = some 0 := by decide
    have hcomb : combineHex 0 0 (c.toNat / 16) (c.toNat % 16) = c.toNat := by
      simp [combineHex]
      omega
    rw [hesc]
    simp only [List.cons_append, parseStringBody, e0, e1, e2, hcomb]
    rw [if_neg (by omega)]
    rw [Char.ofNat_toNat]
    simp
  · have hesc : escapeChar c = [c] := by
      simp [escapeChar, h1, h2, h3, h4, h5, h6]
    rw [hesc]
    simp only [List.cons_append, List.nil_append]
    rw [show parseStringBody (f + 1) (c :: T)
        = if c.toNat < 0x20 then none
          else (parseStringBody f T).map (fun p => (c :: p.1, p.2)) from ?_]
    · rw [if_neg h6]
    · rcases T with _ | ⟨t, T⟩ <;> simp [parseStringBody, h1, h2]

theorem parseStringBody_flatMap (l : List Char) :
    ∀ (f : Nat) (rest : List Char), l.length < f →
      parseStringBody f (l.flatMap escapeChar ++ ('"' :: rest)) = some (l, rest) := by
  induction l with
  | nil =>
    intro f rest hf
    match f, hf with
    | g + 1, _ => rfl
  | cons c l ih =>
    intro f rest hf
    match f, hf with
    | g + 1, hf =>
      rw [List.flatMap_cons, List.append_assoc, parseStringBody_escape_step]
      rw [ih g rest (by simp only [List.length_cons] at hf; omega)]
      rfl

theorem parseMembers_record (e : String) (rest : List Char) (f : Nat) :
    parseMembers (f + 2)
      ('"' :: 'E' :: 'r' :: 'r' :: 'o' :: 'r' :: '"' :: ':' :: '"' ::
        (e.data.flatMap escapeChar ++ '"' :: '}' :: rest)) []
      = some (.obj [("Error", .str e)], rest) := by
  have h5 := length_le_flatMap_escape ['E', 'r', 'r', 'o', 'r']
  have he := length_le_flatMap_escape e.data
  rw [parseMembers]
  rw [skipWs_cons_of_not_ws (by decide)]
  simp only []
  rw [show ('E' :: 'r' :: 'r' :: 'o' :: 'r' :: '"' ::
        (':' :: '"' :: (e.data.flatMap escapeChar ++ '"' :: '}' :: rest)))
      = (['E', 'r', 'r', 'o', 'r'].flatMap escapeChar ++
        ('"' :: (':' :: '"' :: (e.data.flatMap escapeChar ++ '"' :: '}' :: rest)))) from rfl]
  rw [parseStringBody_flatMap ['E', 'r', 'r', 'o', 'r'] _ _
    (by simp only [List.length_append, List.length_cons] at h5 ⊢; omega)]
  simp only []
  rw [skipWs_cons_of_not_ws (by decide)]
  simp only []
  rw [parseValue]
  rw [skipWs_cons_of_not_ws (by decide)]
  simp only []
  rw [parseStringBody_flatMap e.data _ ('}' :: rest)
    (by simp only [List.length_append, List.length_cons] at he ⊢; omega)]
  rfl

theorem parseValue_record_shape (e : String) (rest : List Char) (F : Nat) (hF : 3 ≤ F) :
    parseValue F
      ('{' :: '"' :: 'E' :: 'r' :: 'r' :: 'o' :: 'r' :: '"' :: ':' :: '"' ::
        (e.data.flatMap escapeChar ++ '"' :: '}' :: rest))
      = some (.obj [("Error", .str e)], rest) := by
  obtain ⟨f, rfl⟩ : ∃ f, F = f + 3 := ⟨F - 3, by omega⟩
  rw [parseValue]
  rw [skipWs_cons_of_not_ws (by decide)]
  simp only []
  rw [skipWs_cons_of_not_ws (by decide)]
  exact parseMembers_record e rest f

theorem jsonDecodeLoop_encodeRecords (buf : String) (rs : List SchemaApply) :
    ∀ (fuel : Nat) (acc : List SchemaApply), rs.length < fuel →
      jsonDecodeLoop SchemaApply.fromJson buf fuel
        (rs.flatMap (fun r => encodeRecordChars r ++ ['\n'])) acc = .ok (acc ++ rs) := by
  induction rs with
  | nil =>
    intro fuel acc h
    match fuel, h with
    | g + 1, _ => simp [jsonDecodeLoop, skipWs]
  | cons r rs ih =>
    intro fuel acc h
    match fuel, h with
    | g + 1, h =>
      have hshape : (r :: rs).flatMap (fun r => encodeRecordChars r ++ ['\n'])
          = '{' :: '"' :: 'E' :: 'r' :: 'r' :: 'o' :: 'r' :: '"' :: ':' :: '"' ::
            (r.Error.data.flatMap escapeChar ++ '"' :: '}' ::
              ('\n' :: rs.flatMap (fun r => encodeRecordChars r ++ ['\n']))) := by
        simp [encodeRecordChars, encodeStringChars]
      rw [hshape]
      rw [jsonDecodeLoop]
      rw [skipWs_cons_of_not_ws (by decide)]
      simp only []
      rw [parseValue_record_shape r.Error _ _
        (by simp only [List.length_cons]; omega)]
      simp only []
      rw [show SchemaApply.fromJson (.obj [("Error", .str r.Error)]) = some r from rfl]
      simp only []
      rw [← jsonDecodeLoop_skipWs _ _ _ ('\n' :: _)]
      rw [skipWs_cons_of_ws (by decide)]
      rw [jsonDecodeLoop_skipWs]
      rw [ih g (acc ++ [r]) (by simp only [List.length_cons] at h; omega)]
      simp

/-- C1 counterexample: a completed invocation that exits successfully
with non-empty stderr returns the stdout reader and no error at all —
`runCommand` classifies by the `cmd.Run()` error before ever looking at
stderr, so non-empty stderr does not force a structural error when the
exit status is success. -/
theorem runCommand_success_ignores_stderr :
    runCommand ⟨none, "ok", "warning"⟩ = .ok "ok" ∧ trimSpace "warning" ≠ "" :=
  ⟨rfl, by decide⟩

/-- C1 (amended): for every invocation whose `cmd.Run()` reports an
error (failing exit status or start failure) and whose trimmed stderr
is non-empty, `runCommand` returns the structural `Error` value and its
message equals the trimmed stderr text, regardless of stdout content. -/
theorem runCommand_failure_stderr_message (u : UnderlyingErr) (so se : String)
    (h : trimSpace se ≠ "") :
    runCommand ⟨some u, so, se⟩ = .error ⟨some u, trimSpace so, trimSpace se⟩ ∧
    Error.ErrorMsg ⟨some u, trimSpace so, trimSpace se⟩ = trimSpace se := by
  exact ⟨rfl, by simp [Error.ErrorMsg, h]⟩

/-- C1 witness: the amended theorem at a concrete failing invocation
with stderr ` Error: x ` and JSON-shaped stdout. -/
theorem runCommand_failure_stderr_message_witness :
    runCommand ⟨some (.exitErr 2), "out", " Error: x "⟩
      = .error ⟨some (.exitErr 2), trimSpace "out", trimSpace " Error: x "⟩ ∧
    Error.ErrorMsg ⟨some (.exitErr 2), trimSpace "out", trimSpace " Error: x "⟩
      = trimSpace " Error: x " :=
  runCommand_failure_stderr_message (.exitErr 2) "out" " Error: x " (by decide)

/-- C2 counterexample: an invocation that exits with failure while
both streams are empty is routed by `jsonDecodeErr` to the
partial-failure constructor — the empty stdout decodes to zero records
with no decode error, so the caller receives a `SchemaApplyError`
carrying an empty record sequence, not a malformed-output error. -/
theorem empty_streams_partial_error_cex :
    jsonDecodeErr newSchemaApplyError (runCommand ⟨some (.exitErr 1), "", ""⟩)
      = .error (.schemaApply ⟨[]⟩) ∧
    (GoError.schemaApply ⟨[]⟩).isPartialError = true ∧
    (GoError.schemaApply ⟨[]⟩).isMalformedOutput = false :=
  ⟨rfl, rfl, rfl⟩

/-- C2 (amended): for every invocation that exits with failure while
trimmed stderr and trimmed stdout are both empty, a
`jsonDecodeErr`-wrapped operation returns the partial-failure error
built from the empty record sequence. -/
theorem empty_streams_give_empty_partial_error (u : UnderlyingErr) (so se : String)
    (hso : trimSpace so = "") (hse : trimSpace se = "") :
    jsonDecodeErr newSchemaApplyError (runCommand ⟨some u, so, se⟩)
      = .error (.schemaApply ⟨[]⟩) := by
  have hrun : runCommand ⟨some u, so, se⟩ = .error ⟨some u, "", ""⟩ := by
    simp [runCommand, hso, hse]
  rw [hrun]
  rfl

/-- C2 witness: the amended theorem at a failing exit with
whitespace-only streams. -/
theorem empty_streams_give_empty_partial_error_witness :
    trimSpace " \n" = "" ∧
    jsonDecodeErr newSchemaApplyError (runCommand ⟨some (.exitErr 1), "", " \n"⟩)
      = .error (.schemaApply ⟨[]⟩) :=
  ⟨by decide,
   empty_streams_give_empty_partial_error (.exitErr 1) "" " \n" (by decide) (by decide)⟩

/-- C3: the partial-failure error built from a decoded record sequence
carries the full ordered sequence in its `Result` field, and its
message is the record-level `Error` field of the last record of the
sequence. -/
theorem schemaApplyError_carries_last_message (rs : List SchemaApply) (h : rs ≠ []) :
    newSchemaApplyError rs = .schemaApply ⟨rs⟩ ∧
    (SchemaApplyError.mk rs).Result = rs ∧
    (SchemaApplyError.mk rs).ErrorMsg = some ((rs.getLast h).Error) := by
  refine ⟨rfl, rfl, ?_⟩
  unfold SchemaApplyError.ErrorMsg last
  rw [List.getLastD_eq_getLast?, List.getLast?_map, List.getLast?_eq_getLast _ h]
  rfl

/-- C3 witness: the two-record sequence where only the second record
has a non-empty error field yields length 2 and the second record's
error text as the message. -/
theorem schemaApplyError_carries_last_message_witness :
    newSchemaApplyError [⟨""⟩, ⟨"boom"⟩] = .schemaApply ⟨[⟨""⟩, ⟨"boom"⟩]⟩ ∧
    (SchemaApplyError.mk [⟨""⟩, ⟨"boom"⟩]).Result = [⟨""⟩, ⟨"boom"⟩] ∧
    (SchemaApplyError.mk [⟨""⟩, ⟨"boom"⟩]).ErrorMsg = some "boom" := by
  have h := schemaApplyError_carries_last_message [⟨""⟩, ⟨"boom"⟩] (by decide)
  exact ⟨h.1, h.2.1, by rw [h.2.2]; decide⟩

/-- C4: `MigrateLintError` returns the `LintErr` sentinel exactly when
the run reports an error, trimmed stderr is empty and trimmed stdout is
non-empty; when trimmed stderr is non-empty it returns the structural
`Error` value instead; and the sentinel is distinguishable from every
other error shape by identity. -/
theorem migrateLintError_sentinel (o : RawOutcome) :
    (MigrateLintError (runCommand o) = some .lintErr ↔
      o.runErr ≠ none ∧ trimSpace o.stderr = "" ∧ trimSpace o.stdout ≠ "") ∧
    (∀ u : UnderlyingErr, o.runErr = some u → trimSpace o.stderr ≠ "" →
      MigrateLintError (runCommand o)
        = some (.cli ⟨some u, trimSpace o.stdout, trimSpace o.stderr⟩)) ∧
    (∀ e : Error, GoError.lintErr ≠ GoError.cli e) ∧
    (∀ e : SchemaApplyError, GoError.lintErr ≠ GoError.schemaApply e) ∧
    (∀ m : String, GoError.lintErr ≠ GoError.simple m) := by
  obtain ⟨ru, so, se⟩ := o
  refine ⟨?_, ?_, ?_, ?_, ?_⟩
  · cases ru with
    | none => simp [runCommand, MigrateLintError]
    | some u =>
      by_cases h1 : trimSpace se = "" <;> by_cases h2 : trimSpace so = "" <;>
        simp [runCommand, MigrateLintError, h1, h2]
  · intro u hu h1
    cases hu
    simp [runCommand, MigrateLintError, h1]
  · exact fun e h => by cases h
  · exact fun e h => by cases h
  · exact fun m h => by cases h

/-- C4 witness: the classification at a failing exit with lint
findings on stdout (the sentinel) and at a failing exit with a stderr
diagnostic (the structural error). -/
theorem migrateLintError_sentinel_witness :
    MigrateLintError (runCommand ⟨some (.exitErr 1), "report", ""⟩) = some .lintErr ∧
    MigrateLintError (runCommand ⟨some (.exitErr 1), "out", "boom"⟩)
      = some (.cli ⟨some (.exitErr 1), trimSpace "out", trimSpace "boom"⟩) :=
  ⟨(migrateLintError_sentinel ⟨some (.exitErr 1), "report", ""⟩).1.mpr
     (by refine ⟨by simp, by decide, by decide⟩),
   (migrateLintError_sentinel ⟨some (.exitErr 1), "out", "boom"⟩).2.1
     (.exitErr 1) rfl (by decide)⟩

/-- C8: `SetEnv` rejects any base environment that binds one of the
fixed operational keys, leaving the client unchanged (and is a pure
configuration call, issued before any process is spawned); and the
environment `runCommand` hands to the child process maps each fixed
key to its fixed value whatever base environment is in effect. -/
theorem setEnv_guard_and_child_env (c : Client) (env osEnv : List (String × String)) :
    (("ATLAS_NO_UPDATE_NOTIFIER" ∈ env.map Prod.fst ∨
      "ATLAS_NO_UPGRADE_SUGGESTIONS" ∈ env.map Prod.fst) →
      (SetEnv c env).1 = c ∧ (SetEnv c env).2.isSome = true) ∧
    lookupEnv (childEnv c osEnv) "ATLAS_NO_UPDATE_NOTIFIER" = some "1" ∧
    lookupEnv (childEnv c osEnv) "ATLAS_NO_UPGRADE_SUGGESTIONS" = some "1" := by
  refine ⟨?_, ?_, ?_⟩
  · intro h
    have hfind : (env.find? (fun kv => (lookupEnv defaultEnvs kv.1).isSome)).isSome := by
      rw [List.find?_isSome]
      rcases h with h | h
      · obtain ⟨kv, hmem, hk⟩ := List.mem_map.mp h
        exact ⟨kv, hmem, by simp [lookupEnv, defaultEnvs, hk]⟩
      · obtain ⟨kv, hmem, hk⟩ := List.mem_map.mp h
        exact ⟨kv, hmem, by simp [lookupEnv, defaultEnvs, hk]⟩
    obtain ⟨kv, hkv⟩ := Option.isSome_iff_exists.mp hfind
    simp [SetEnv, hkv]
  · have h1 : defaultEnvs.find? (fun kv => kv.1 == "ATLAS_NO_UPDATE_NOTIFIER")
        = some ("ATLAS_NO_UPDATE_NOTIFIER", "1") := by decide
    unfold childEnv mapsCopy lookupEnv
    rw [List.find?_append, h1]
    rfl
  · have h2 : defaultEnvs.find? (fun kv => kv.1 == "ATLAS_NO_UPGRADE_SUGGESTIONS")
        = some ("ATLAS_NO_UPGRADE_SUGGESTIONS", "1") := by decide
    unfold childEnv mapsCopy lookupEnv
    rw [List.find?_append, h2]
    rfl

/-- C8 witness: the guard at a base environment that binds
`ATLAS_NO_UPDATE_NOTIFIER`, together with the child-environment
bindings for the default OS environment. -/
theorem setEnv_guard_and_child_env_witness :
    (SetEnv ⟨"atlas", "", none⟩ [("ATLAS_NO_UPDATE_NOTIFIER", "0")]).1 = ⟨"atlas", "", none⟩ ∧
    (SetEnv ⟨"atlas", "", none⟩ [("ATLAS_NO_UPDATE_NOTIFIER", "0")]).2.isSome = true ∧
    lookupEnv (childEnv ⟨"atlas", "", none⟩ [("HOME", "h")]) "ATLAS_NO_UPDATE_NOTIFIER"
      = some "1" ∧
    lookupEnv (childEnv ⟨"atlas", "", none⟩ [("HOME", "h")]) "ATLAS_NO_UPGRADE_SUGGESTIONS"
      = some "1" := by
  have h := setEnv_guard_and_child_env ⟨"atlas", "", none⟩
    [("ATLAS_NO_UPDATE_NOTIFIER", "0")] [("HOME", "h")]
  have hg := h.1 (Or.inl (by decide))
  exact ⟨hg.1, hg.2, h.2.1, h.2.2⟩

/-- C5: the single-result assertion `firstResult` returns the sole
record of a one-element sequence with no error, and returns the
cardinality error for the empty sequence and for every sequence of two
or more records. -/
theorem firstResult_cardinality (x y : SchemaApply) (r : List SchemaApply) :
    firstResult [x] none = .ok x ∧
    firstResult ([] : List SchemaApply) none = .error (.simple firstResultCardMsg) ∧
    firstResult (x :: y :: r) none = .error (.simple firstResultCardMsg) :=
  ⟨rfl, rfl, rfl⟩

/-- C9: `Error.ExitCode` returns the exit code carried by the
underlying `exec.ExitError` when there is one, and the non-zero
default `-1` when the underlying error carries no process exit
information. -/
theorem exitCode_actual_or_default (e : Error) :
    (∀ c : Int, e.err = some (.exitErr c) → e.ExitCode = c) ∧
    ((∀ c : Int, e.err ≠ some (.exitErr c)) → e.ExitCode = -1 ∧ e.ExitCode ≠ 0) := by
  constructor
  · intro c hc
    simp [Error.ExitCode, hc]
  · intro h
    match he : e.err with
    | some (.exitErr c) => exact absurd he (h c)
    | some .startErr => simp [Error.ExitCode, he]
    | some .decodeErr => simp [Error.ExitCode, he]
    | none => simp [Error.ExitCode, he]

/-- C9 witness: the accessor at a process that exited with code 2 and
at a process that never started. -/
theorem exitCode_actual_or_default_witness :
    Error.ExitCode ⟨some (.exitErr 2), "o", "e"⟩ = 2 ∧
    (Error.ExitCode ⟨some .startErr, "", ""⟩ = -1 ∧
      Error.ExitCode ⟨some .startErr, "", ""⟩ ≠ 0) :=
  ⟨(exitCode_actual_or_default ⟨some (.exitErr 2), "o", "e"⟩).1 2 rfl,
   (exitCode_actual_or_default ⟨some .startErr, "", ""⟩).2 (fun c hc => by simp at hc)⟩

/-- C6: whenever the multi-record decoder fails — on any stdout byte
sequence in which some JSON value fails to decode or unmarshal — it
returns no records (the Go function returns a nil slice, modelled by
the `Except.error` result) and the error preserves the entire raw
stdout bytes verbatim in its `Stdout` field, with the JSON-decode
wrapper as the underlying error. -/
theorem jsonDecode_failure_preserves_raw (buf : String) (e : Error)
    (h : jsonDecodeSA buf = .error e) :
    jsonDecodeSA buf = .error ⟨some .decodeErr, buf, ""⟩ := by
  rw [h, jsonDecodeLoop_error_shape SchemaApply.fromJson buf _ _ _ _ h]

/-- C6 witness: decoding the stdout `not json` fails and the error's
raw-stdout field equals `not json` verbatim. -/
theorem jsonDecode_failure_preserves_raw_witness :
    jsonDecodeSA "not json" = .error ⟨some .decodeErr, "not json", ""⟩ :=
  jsonDecode_failure_preserves_raw "not json" ⟨some .decodeErr, "not json", ""⟩ rfl

/-- C7: encoding any list of records back-to-back as newline-delimited
JSON objects and running the multi-record decoder yields exactly the
original records in the original order, with no array wrapper
involved. -/
theorem encode_decode_roundTrip (rs : List SchemaApply) :
    jsonDecodeSA (encodeRecords rs) = .ok rs := by
  have hlen : rs.length ≤ (rs.flatMap (fun r => encodeRecordChars r ++ ['\n'])).length := by
    induction rs with
    | nil => simp
    | cons r rs ih =>
      simp only [List.flatMap_cons, List.length_append, List.length_cons, List.length_nil]
      omega
  exact jsonDecodeLoop_encodeRecords (encodeRecords rs) rs _ []
    (by
      show rs.length < (rs.flatMap (fun r => encodeRecordChars r ++ ['\n'])).length + 1
      omega)

/-- C10: `WithWorkDir` restores the client's working directory to its
previous value after the callback returns — whatever client state and
error the callback produced — while the callback observes a client
whose working directory is `dir` and whose executable path and
environment are those of the original client; `WithWorkDir` itself
changes nothing else: the callback's resulting executable path,
environment and returned error are passed through unchanged. -/
theorem withWorkDir_frame (c : Client) (dir : String)
    (fn : Client → Client × Option GoError) :
    (WithWorkDir c dir fn).1.workingDir = c.workingDir ∧
    ({ c with workingDir := dir } : Client).workingDir = dir ∧
    ({ c with workingDir := dir } : Client).execPath = c.execPath ∧
    ({ c with workingDir := dir } : Client).env = c.env ∧
    (WithWorkDir c dir fn).1.execPath = (fn { c with workingDir := dir }).1.execPath ∧
    (WithWorkDir c dir fn).1.env = (fn { c with workingDir := dir }).1.env ∧
    (WithWorkDir c dir fn).2 = (fn { c with workingDir := dir }).2 :=
  ⟨rfl, rfl, rfl, rfl, rfl, rfl, rfl⟩

end AtlasExec
